import Mathlib

/-!
# Verification of the grouping-and-merge engine of `mm-project`

Shallow embedding of the core data-processing functions of `src/app.py`
(`get_base_key`, `group_data_with_wildcard`, `clean_dataframe`) together with
proofs about the specification's claims on them.

Modelling conventions:
* A pandas cell is a `Val`: an integer numeric (`num`), a text (`str`), or the
  missing/NaN value (`null`).  Numeric cells are modelled as integers; the
  claims under study only exercise integer-valued amounts, and Python's
  `str(int(v))` / `f"{v:,.0f}"` agree with the integer model there.
* A DataFrame is a `Table`: a list of declared column names plus a list of
  rows; each row is an association list from column name to cell value, plus
  the row of the `original_str` companion frame (`df.attrs['original_str']`),
  absent entries standing for a missing frame / column / NaN original.
* `df.groupby(col)` is modelled by enumerating the distinct keys in
  first-seen order (pandas sorts group keys, but no claim depends on group
  enumeration order) and dropping null keys (`dropna=True` default).
* `Series.sort_values()` on the 0/1 wildcard sort keys is modelled by an
  insertion sort (`sortByKey`, one representative of the permutations the
  unstable default quicksort may produce); `Series.unique()` keeps first
  occurrences (`uniqFirst`); the `grouped_data` dict is the overwrite
  collapse (`pyDictOf`) of the assignment sequence the loop performs.
-/

namespace MM

/-- A cell value: integer numeric, text, or missing (NaN/None). -/
inductive Val where
  | num (n : Int)
  | str (s : String)
  | null
deriving DecidableEq, Repr

/-- Python `str()` of a cell value: numbers print bare, NaN prints `"nan"`. -/
def pyStr : Val → String
  | .num n => toString n
  | .str s => s
  | .null => "nan"

/-- ASCII whitespace, the characters Python's `str.strip()` removes on the
inputs under study. -/
def isPySpace (c : Char) : Bool :=
  c = ' ' || c = '\t' || c = '\n' || c = '\r'

/-- Python `str.strip()`: drop whitespace from both ends.  (Defined over the
character list so that it reduces definitionally; the core `String.trim` is
implemented by well-founded recursion and does not.) -/
def pyTrim (s : String) : String :=
  String.mk (((s.data.dropWhile isPySpace).reverse.dropWhile isPySpace).reverse)

/-- ASCII lower-casing of one character (`str.lower()` on the alphabets in
play; Korean text has no case). -/
def pyCharLower (c : Char) : Char :=
  if 'A' ≤ c ∧ c ≤ 'Z' then Char.ofNat (c.toNat + 32) else c

/-- Python `str.lower()`. -/
def pyLower (s : String) : String :=
  String.mk (s.data.map pyCharLower)

/-- Python `s.endswith(suffix)`: exact, case-sensitive suffix test. -/
def pyEndsWith (s suffix : String) : Bool :=
  suffix.data.isSuffixOf s.data

/-- Python `s.replace(c, '')` for a single-character pattern: remove every
occurrence (the only shape of `str.replace` used by `clean_dataframe`). -/
def pyRemoveChar (c : Char) (s : String) : String :=
  String.mk (s.data.filter (fun a => a ≠ c))

/-- The digits of a numeral, parsed left to right. -/
def parseDigits : List Char → Option Nat
  | [] => none
  | l => l.foldl (fun acc c =>
      acc.bind (fun n => if c.isDigit then some (n * 10 + (c.toNat - 48)) else none))
      (some 0)

/-- Model of `pd.to_numeric(..., errors='coerce')` on an integer-valued numeral:
optional sign and digits, anything else coerces to NaN (`none`). -/
def pyParseInt : String → Option Int
  | s =>
    match s.data with
    | '-' :: rest => (parseDigits rest).map (fun n => -(n : Int))
    | l => (parseDigits l).map (fun n => (n : Int))

/-- One record of the input table: the cell row and this row's entry of the
`original_str` companion frame (absent ↦ no original string available). -/
structure Row where
  cells : List (String × Val)
  orig : List (String × String)
deriving DecidableEq, Repr

/-- An in-memory table: declared column names and data rows. -/
structure Table where
  cols : List String
  rows : List Row
deriving DecidableEq, Repr

/-- The configuration handed to `group_data_with_wildcard` (its parameters). -/
structure Config where
  group_key_col : String
  email_col : Option String
  amount_cols : List String
  percent_cols : List String
  display_cols : List String
  conflict_resolution : String
  use_wildcard : Bool
  wildcard_suffixes : List String
  calculate_totals : Bool
deriving DecidableEq, Repr

/-- Reading `df[col]` for a row: a column every row shares; an absent column behaves
as a NaN cell. -/
def cellVal (r : Row) (c : String) : Val := (r.cells.lookup c).getD .null

/-- Python `s[:-n]`: drops the last `n` characters, except that `n = 0` gives
the empty string (`s[:-0]` is `s[:0]`). -/
def pyDropLast (s : String) (n : Nat) : String :=
  if n = 0 then "" else String.mk (s.data.take (s.data.length - n))

/-- The inner `get_base_key` of `group_data_with_wildcard` (src/app.py:1572-1577):
stringify and trim, then strip the first matching configured suffix via the
Python slice `val_str[:-len(suffix)]` and re-trim; unchanged if no suffix
matches. -/
def get_base_key (wildcard_suffixes : List String) (val : Val) : String :=
  let val_str := pyTrim (pyStr val)
  match wildcard_suffixes.find? (fun suffix => pyEndsWith val_str suffix) with
  | some suffix => pyTrim (pyDropLast val_str suffix.length)
  | none => val_str

/-- The grouping key of a row: the `_base_group_key` column when wildcard
grouping is on (src/app.py:1579-1582), the raw group-key cell otherwise. -/
def effKey (cfg : Config) (r : Row) : Val :=
  if cfg.use_wildcard then .str (get_base_key cfg.wildcard_suffixes (cellVal r cfg.group_key_col))
  else cellVal r cfg.group_key_col

/-- Rows `df.groupby` keeps: those whose grouping key is not NaN
(`dropna=True` default). -/
def validRows (cfg : Config) (t : Table) : List Row :=
  t.rows.filter (fun r => effKey cfg r ≠ .null)

/-- Distinct elements in first-seen order (pandas `unique`, dict insertion). -/
def uniqFirst {α : Type} [DecidableEq α] : List α → List α
  | [] => []
  | a :: t => a :: (uniqFirst t).filter (fun b => b ≠ a)

/-- The distinct grouping keys, in first-seen order. -/
def groupKeys (cfg : Config) (t : Table) : List Val :=
  uniqFirst ((validRows cfg t).map (effKey cfg))

/-- The partition of one grouping key: its `group_df`. -/
def rowsOfKey (cfg : Config) (t : Table) (k : Val) : List Row :=
  (validRows cfg t).filter (fun r => effKey cfg r = k)

/-- The blank-sentinel test on a stringified group key (src/app.py:1588):
`not base_key_str or base_key_str.lower() in ['nan', 'none', '(비어 있음)']`. -/
def isBlankKey (s : String) : Bool :=
  s = "" || pyLower s ∈ ["nan", "none", "(비어 있음)"]

/-- The grouping keys that survive the blank-sentinel skip. -/
def keptKeys (cfg : Config) (t : Table) : List Val :=
  (groupKeys cfg t).filter (fun k => ¬ isBlankKey (pyStr k))

/-- Truthiness-and-membership guard on the email column (src/app.py:1592):
`email_col and email_col in group_df.columns`. -/
def emailColOk (cfg : Config) (t : Table) : Bool :=
  match cfg.email_col with
  | some c => c ≠ "" && c ∈ t.cols
  | none => false

/-- Model of `group_df[email_col].dropna()`: the raw non-null email cells of a
partition, empty when the guard fails. -/
def rawEmails (cfg : Config) (t : Table) (grp : List Row) : List Val :=
  if emailColOk cfg t then
    (grp.map (fun r => cellVal r (cfg.email_col.getD ""))).filter (fun v => v ≠ Val.null)
  else []

/-- The blank-email sentinels of src/app.py:1594. -/
def blankEmail : List String := ["nan", "none", ""]

/-- The `unique_emails` comprehension (src/app.py:1593-1594): distinct raw values in first-seen
order, each then stringified and stripped, keeping only truthy, non-sentinel
results.  Note the distinctness is computed on the raw values, before the
strip. -/
def unique_emails (cfg : Config) (t : Table) (grp : List Row) : List String :=
  ((uniqFirst (rawEmails cfg t grp)).map (fun e => pyTrim (pyStr e))).filter
    (fun s => s ≠ "" && pyLower s ∉ blankEmail)

/-- Model of `value_counts().index[0]` (src/app.py:1607): the raw non-null value with
the largest occurrence count; pandas keeps first-seen order for ties, modelled
by only displacing the running best on a strictly larger count. -/
def mostCommonVal (l : List Val) : Val :=
  match uniqFirst l with
  | [] => .null
  | d :: ds => ds.foldl (fun acc v => if l.count v > l.count acc then v else acc) d

/-- The recipient choice of src/app.py:1599-1609. -/
def resolveRecipient (cfg : Config) (t : Table) (grp : List Row) : Option String :=
  match unique_emails cfg t grp with
  | [] => none
  | e :: rest =>
    if rest = [] then some e
    else if cfg.conflict_resolution = "first" then some e
    else if cfg.conflict_resolution = "most_common" && emailColOk cfg t then
      some (pyStr (mostCommonVal (rawEmails cfg t grp)))
    else some e

/-- The inner `sort_key` (src/app.py:1613-1614): does the raw group-key cell of the row
end with a configured wildcard suffix? -/
def isTotalRow (cfg : Config) (r : Row) : Bool :=
  cfg.wildcard_suffixes.any (fun s => pyEndsWith (pyStr (cellVal r cfg.group_key_col)) s)

/-- Stable insertion of `x` into a list sorted by the numeric key `f`:
`x` goes after every element with key `≤ f x`. -/
def insByKey {α : Type} (f : α → Nat) (x : α) : List α → List α
  | [] => [x]
  | b :: t => if f x < f b then x :: b :: t else b :: insByKey f x t

/-- Sort by a numeric key, modelling the
`group_df[group_key_col].apply(sort_key).sort_values().index` reindexing
(src/app.py:1617-1618).  `sort_values()` defaults to `kind='quicksort'`,
which does not promise a tie order, so this insertion sort is one concrete
representative of the permutations the source may produce (the stable one
numpy uses on small inputs); no theorem below relies on the order of
equal-keyed elements — only on lengths, membership and per-row contents. -/
def sortByKey {α : Type} (f : α → Nat) (l : List α) : List α :=
  l.foldl (fun acc x => insByKey f x acc) []

/-- The rows of a partition in output order: sorted so data rows precede
total-suffix rows when wildcard grouping is on, untouched otherwise. -/
def orderedRows (cfg : Config) (grp : List Row) : List Row :=
  if cfg.use_wildcard then
    sortByKey (fun r => if isTotalRow cfg r then 1 else 0) grp
  else grp

/-- The blank sentinels applied to an available original string
(src/app.py:1658). -/
def blankOrig : List String := ["nan", "none", "nat", "", "0", "0.0", "0.00"]

/-- The blank sentinels applied to a plain text cell (src/app.py:1672). -/
def blankStr : List String := ["nan", "none", "nat", "", "0", "0.0"]

/-- Rendering of a numeric or text cell when no original string applies
(src/app.py:1665-1675): integers print bare, texts are stripped and blanked
when they are a sentinel. -/
def renderPlain : Val → String
  | .num n => toString n
  | .str s =>
    let str_val := pyTrim s
    if pyLower str_val ∈ blankStr then "" else str_val
  | .null => ""

/-- The display string of one cell of one row (src/app.py:1631-1677):
missing column or NaN → empty; numeric zero → empty; else the stripped
original spreadsheet string when one is available (itself blanked when a
sentinel), else the plain rendering of the cleaned value. -/
def renderCell (r : Row) (c : String) : String :=
  match r.cells.lookup c with
  | none => ""
  | some v =>
    if v = .null then ""
    else
      let origStr := (r.orig.lookup c).map pyTrim
      if v = .num 0 then ""
      else
        match origStr with
        | some os =>
          if os ≠ "" then
            if pyLower os ∈ blankOrig then "" else os
          else renderPlain v
        | none => renderPlain v

/-- One display row: each display column mapped to its rendered string
(src/app.py:1629-1678). -/
def renderRow (cfg : Config) (r : Row) : List (String × String) :=
  cfg.display_cols.map (fun c => (c, renderCell r c))

/-- The numeric contribution of a cell to a pandas `sum` (`skipna=True`):
numerics count, NaN counts zero. -/
def amtOf : Val → Int
  | .num n => n
  | _ => 0

/-- Model of `group_df[col].sum()` over a list of rows. -/
def amountSum (grp : List Row) (c : String) : Int :=
  (grp.map (fun r => amtOf (cellVal r c))).sum

/-- Commas every three digits from the right, on the digit string of a
non-negative number. -/
def chunk3 : List Char → List Char
  | a :: b :: c :: d :: rest => a :: b :: c :: ',' :: chunk3 (d :: rest)
  | l => l

/-- Python `f"{v:,.0f}"` on an integer: sign plus comma-grouped digits. -/
def fmtComma (n : Int) : String :=
  let grouped := String.mk (chunk3 (toString n.natAbs).toList.reverse).reverse
  if n < 0 then "-" ++ grouped else grouped

/-- The total formatting of src/app.py:1691: comma-grouped digits, and the
empty string when the total is zero. -/
def fmtTotal (n : Int) : String :=
  if n = 0 then "" else fmtComma n

/-- The `totals` mapping (src/app.py:1680-1698): only when `calculate_totals`;
with wildcard grouping the total-suffix rows are masked out of the sum. -/
def totalsOf (cfg : Config) (t : Table) (grp : List Row) : List (String × String) :=
  if cfg.calculate_totals then
    let base := if cfg.use_wildcard then grp.filter (fun r => ¬ isTotalRow cfg r) else grp
    (cfg.amount_cols.filter (fun c => c ∈ t.cols)).map (fun c => (c, fmtTotal (amountSum base c)))
  else []

/-- The per-group statement record (src/app.py:1700-1707). -/
structure GroupRecord where
  recipient_email : Option String
  rows : List (List (String × String))
  totals : List (String × String)
  row_count : Nat
  has_conflict : Bool
  conflict_emails : List String
deriving DecidableEq, Repr

/-- One entry of the `conflicts` side channel (src/app.py:1610-1611). -/
structure ConflictEntry where
  group_key : String
  emails : List String
  selected : Option String
deriving DecidableEq, Repr

/-- Assembly of one partition's `GroupRecord` (src/app.py:1591-1707). -/
def buildGroup (cfg : Config) (t : Table) (grp : List Row) : GroupRecord :=
  let ue := unique_emails cfg t grp
  let rws := (orderedRows cfg grp).map (renderRow cfg)
  { recipient_email := resolveRecipient cfg t grp
    rows := rws
    totals := totalsOf cfg t grp
    row_count := rws.length
    has_conflict := ue.length > 1
    conflict_emails := if ue.length > 1 then ue else [] }

/-- The entry point `group_data_with_wildcard` (src/app.py:1562-1709): the
sequence of `grouped_data[base_key_str] = {...}` assignments in loop order
(one pair per surviving groupby key), and the conflict entries.  The
`grouped_data` dict itself is `pyDictOf` of the first component: when two
distinct groupby keys stringify to the same `base_key_str` (possible with
wildcard grouping off and a mixed-type key column, e.g. the int `1` and the
text `"1"`), the later assignment overwrites the earlier record. -/
def group_data_with_wildcard (cfg : Config) (t : Table) :
    List (String × GroupRecord) × List ConflictEntry :=
  let ks := keptKeys cfg t
  (ks.map (fun k => (pyStr k, buildGroup cfg t (rowsOfKey cfg t k))),
   (ks.filter (fun k => (unique_emails cfg t (rowsOfKey cfg t k)).length > 1)).map
     (fun k =>
       { group_key := pyStr k
         emails := unique_emails cfg t (rowsOfKey cfg t k)
         selected := resolveRecipient cfg t (rowsOfKey cfg t k) }))

/-- One Python dict assignment `d[k] = v`: overwrite in place when the key is
present, append otherwise (dicts preserve insertion order). -/
def dictInsert {β : Type} (d : List (String × β)) (k : String) (v : β) :
    List (String × β) :=
  if k ∈ d.map Prod.fst then d.map (fun p => if p.1 = k then (k, v) else p)
  else d ++ [(k, v)]

/-- The Python dict built by a sequence of assignments, in order: the
`grouped_data` dict is `pyDictOf` of the assignment sequence returned by
`group_data_with_wildcard`. -/
def pyDictOf {β : Type} (l : List (String × β)) : List (String × β) :=
  l.foldl (fun d p => dictInsert d p.1 p.2) []

/-- The amount-column cleaning of `clean_dataframe` (src/app.py:1545-1550):
stringify, delete thousands separators and currency marks, strip, and parse
with `errors='coerce'` (integer-valued inputs in this model). -/
def cleanAmountCell (v : Val) : Val :=
  let s := pyTrim (pyRemoveChar '원' (pyRemoveChar '₩' (pyRemoveChar ',' (pyStr v))))
  match pyParseInt s with
  | some n => .num n
  | none => .null

/-- The percent-column cleaning of `clean_dataframe` (src/app.py:1551-1556). -/
def cleanPercentCell (v : Val) : Val :=
  let s := pyTrim (pyRemoveChar '%' (pyRemoveChar ',' (pyStr v)))
  match pyParseInt s with
  | some n => .num n
  | none => .null

/-- The cleaner `clean_dataframe` (src/app.py:1539-1559): coerce the amount and percent
columns to numerics, leave every other column (and the `original_str`
companion) untouched. -/
def clean_dataframe (t : Table) (amount_cols percent_cols : List String) : Table :=
  { cols := t.cols
    rows := t.rows.map (fun r =>
      { r with cells := r.cells.map (fun p =>
          if p.1 ∈ amount_cols then (p.1, cleanAmountCell p.2)
          else if p.1 ∈ percent_cols then (p.1, cleanPercentCell p.2)
          else p) }) }

/-! ## General list lemmas -/

theorem mem_uniqFirst {α : Type} [DecidableEq α] {a : α} {l : List α} :
    a ∈ uniqFirst l ↔ a ∈ l := by
  induction l with
  | nil => simp [uniqFirst]
  | cons b t ih =>
    by_cases hab : a = b
    · subst hab; simp [uniqFirst]
    · simp [uniqFirst, List.mem_filter, hab, ih]

theorem nodup_uniqFirst {α : Type} [DecidableEq α] (l : List α) :
    (uniqFirst l).Nodup := by
  induction l with
  | nil => simp [uniqFirst]
  | cons b t ih =>
    refine List.nodup_cons.mpr ⟨?_, ih.filter _⟩
    intro hmem
    have h := (List.mem_filter.mp hmem).2
    simp at h

theorem sum_map_indicator {α : Type} [DecidableEq α] (L : List α) (x : α) :
    (L.map (fun k => if x = k then (1 : Nat) else 0)).sum = L.count x := by
  induction L with
  | nil => simp
  | cons a t ih =>
    by_cases h : x = a
    · subst h; simp [List.count_cons, ih]; omega
    · simp [List.count_cons, h, ih]

theorem sum_map_add {γ : Type} (L : List γ) (f g : γ → Nat) :
    (L.map (fun x => f x + g x)).sum = (L.map f).sum + (L.map g).sum := by
  induction L with
  | nil => simp
  | cons a t ih => simp [ih]; omega

/-- Summing the partition sizes over any complete duplicate-free key list
counts the elements whose key satisfies the property. -/
theorem sum_partition_lengths {α β : Type} [DecidableEq β]
    (l : List α) (f : α → β) (P : β → Bool) (K : List β)
    (hnd : K.Nodup) (hK : ∀ a ∈ l, P (f a) → f a ∈ K) :
    ((K.filter P).map (fun k => (l.filter (fun a => f a = k)).length)).sum
      = l.countP (fun a => P (f a)) := by
  induction l with
  | nil => simp
  | cons a t ih =>
    have hKt : ∀ b ∈ t, P (f b) → f b ∈ K := fun b hb => hK b (List.mem_cons_of_mem _ hb)
    have hlen : ∀ k, (List.filter (fun x => decide (f x = k)) (a :: t)).length
        = (if f a = k then 1 else 0) + (List.filter (fun x => decide (f x = k)) t).length := by
      intro k
      by_cases h : f a = k
      · simp [List.filter_cons, h]
        omega
      · simp [List.filter_cons, h]
    have hmapeq : ((K.filter P).map (fun k => (List.filter (fun x => decide (f x = k)) (a :: t)).length))
        = ((K.filter P).map (fun k => (if f a = k then 1 else 0)
            + (List.filter (fun x => decide (f x = k)) t).length)) :=
      List.map_congr_left (fun k _ => hlen k)
    have hind : ((K.filter P).map (fun k => if f a = k then (1 : Nat) else 0)).sum
        = if P (f a) then 1 else 0 := by
      rw [sum_map_indicator]
      by_cases hP : P (f a)
      · have hmem : f a ∈ K.filter P :=
          List.mem_filter.mpr ⟨hK a (List.mem_cons_self a t) hP, hP⟩
        rw [List.count_eq_one_of_mem (hnd.filter _) hmem]
        simp [hP]
      · have hmem : f a ∉ K.filter P := fun hc => hP (List.mem_filter.mp hc).2
        rw [List.count_eq_zero_of_not_mem hmem]
        simp [hP]
    calc ((K.filter P).map (fun k => (List.filter (fun x => decide (f x = k)) (a :: t)).length)).sum
        = ((K.filter P).map (fun k => (if f a = k then 1 else 0)
            + (List.filter (fun x => decide (f x = k)) t).length)).sum := by rw [hmapeq]
      _ = ((K.filter P).map (fun k => if f a = k then (1 : Nat) else 0)).sum
            + ((K.filter P).map (fun k => (List.filter (fun x => decide (f x = k)) t).length)).sum :=
          sum_map_add _ _ _
      _ = (if P (f a) then 1 else 0) + t.countP (fun x => P (f x)) := by
          rw [hind, ih hKt]
      _ = (a :: t).countP (fun x => P (f x)) := by
          rw [List.countP_cons]; omega

theorem length_filter_not_add {α : Type} (p : α → Bool) (l : List α) :
    (l.filter (fun a => !(p a))).length + (l.filter p).length = l.length := by
  induction l with
  | nil => simp
  | cons a t ih => cases h : p a <;> simp [List.filter_cons, h] <;> omega

theorem insByKey_flag_true {α : Type} (p : α → Bool) (x : α) (l : List α)
    (hx : p x = true) :
    insByKey (fun a => if p a then 1 else 0) x l = l ++ [x] := by
  induction l with
  | nil => rfl
  | cons b t ih =>
    have hlt : ¬ ((if p x then (1 : Nat) else 0) < (if p b then 1 else 0)) := by
      cases h : p b <;> simp [hx, h]
    simp [insByKey, hlt, ih]

theorem insByKey_flag_false {α : Type} (p : α → Bool) (x : α) (F0 F1 : List α)
    (hx : p x = false) (h0 : ∀ a ∈ F0, p a = false) (h1 : ∀ a ∈ F1, p a = true) :
    insByKey (fun a => if p a then 1 else 0) x (F0 ++ F1) = F0 ++ x :: F1 := by
  induction F0 with
  | nil =>
    cases F1 with
    | nil => rfl
    | cons b t =>
      have hb := h1 b (List.mem_cons_self b t)
      simp [insByKey, hx, hb]
  | cons a F0' ih =>
    have ha := h0 a (List.mem_cons_self a F0')
    have hlt : ¬ ((if p x then (1 : Nat) else 0) < (if p a then 1 else 0)) := by
      simp [hx, ha]
    simp only [List.cons_append, insByKey, hlt, if_false]
    exact congrArg (List.cons a) (ih (fun b hb => h0 b (List.mem_cons_of_mem _ hb)))

theorem foldl_ins_partition {α : Type} (p : α → Bool) :
    ∀ (l F0 F1 : List α), (∀ a ∈ F0, p a = false) → (∀ a ∈ F1, p a = true) →
    l.foldl (fun acc x => insByKey (fun a => if p a then 1 else 0) x acc) (F0 ++ F1)
      = (F0 ++ l.filter (fun a => !(p a))) ++ (F1 ++ l.filter p) := by
  intro l
  induction l with
  | nil => intro F0 F1 _ _; simp
  | cons x t ih =>
    intro F0 F1 h0 h1
    cases hx : p x with
    | false =>
      have hins : insByKey (fun a => if p a then 1 else 0) x (F0 ++ F1)
          = (F0 ++ [x]) ++ F1 := by
        rw [insByKey_flag_false p x F0 F1 hx h0 h1]; simp
      have h0' : ∀ a ∈ F0 ++ [x], p a = false := by
        intro a ha
        rcases List.mem_append.mp ha with h | h
        · exact h0 a h
        · simp at h; subst h; exact hx
      rw [List.foldl_cons, hins, ih (F0 ++ [x]) F1 h0' h1]
      simp [List.filter_cons, hx]
    | true =>
      have hins : insByKey (fun a => if p a then 1 else 0) x (F0 ++ F1)
          = F0 ++ (F1 ++ [x]) := by
        have hall : insByKey (fun a => if p a then 1 else 0) x (F0 ++ F1)
            = (F0 ++ F1) ++ [x] := insByKey_flag_true p x _ hx
        rw [hall]; simp
      have h1' : ∀ a ∈ F1 ++ [x], p a = true := by
        intro a ha
        rcases List.mem_append.mp ha with h | h
        · exact h1 a h
        · simp at h; subst h; exact hx
      rw [List.foldl_cons, hins, ih F0 (F1 ++ [x]) h0 h1']
      simp [List.filter_cons, hx]

/-- The stable sort on the 0/1 wildcard flags is exactly: the unflagged
elements in order, then the flagged ones in order. -/
theorem sortByKey_flag_partition {α : Type} (p : α → Bool) (l : List α) :
    sortByKey (fun a => if p a then 1 else 0) l
      = l.filter (fun a => !(p a)) ++ l.filter p := by
  have h := foldl_ins_partition p l [] [] (by simp) (by simp)
  simpa [sortByKey] using h

theorem length_sortByKey_flag {α : Type} (p : α → Bool) (l : List α) :
    (sortByKey (fun a => if p a then 1 else 0) l).length = l.length := by
  rw [sortByKey_flag_partition, List.length_append, length_filter_not_add]

theorem length_orderedRows (cfg : Config) (grp : List Row) :
    (orderedRows cfg grp).length = grp.length := by
  unfold orderedRows
  split
  · exact length_sortByKey_flag _ _
  · rfl

theorem row_count_buildGroup (cfg : Config) (t : Table) (grp : List Row) :
    (buildGroup cfg t grp).row_count = grp.length := by
  simp [buildGroup, length_orderedRows]

/-! ## Association-list lemmas for rendered rows and totals -/

theorem lookup_map_pair_of_mem {α β : Type} [DecidableEq α]
    (f : α → β) {c : α} : ∀ (l : List α), c ∈ l →
    (l.map (fun x => (x, f x))).lookup c = some (f c)
  | a :: t, hmem => by
    by_cases h : a = c
    · subst h; simp [List.lookup]
    · have hc : c ∈ t := by
        rcases List.mem_cons.mp hmem with h' | h'
        · exact absurd h'.symm h
        · exact h'
      have hbeq : (c == a) = false := beq_eq_false_iff_ne.mpr (Ne.symm h)
      simp [List.lookup, hbeq, lookup_map_pair_of_mem f t hc]

theorem lookup_map_pair_of_not_mem {α β : Type} [DecidableEq α]
    (f : α → β) {c : α} : ∀ (l : List α), c ∉ l →
    (l.map (fun x => (x, f x))).lookup c = none
  | [], _ => rfl
  | a :: t, hmem => by
    have h : a ≠ c := fun h => hmem (h ▸ List.mem_cons_self a t)
    have hbeq : (c == a) = false := beq_eq_false_iff_ne.mpr (Ne.symm h)
    simp [List.lookup, hbeq,
      lookup_map_pair_of_not_mem f t (fun hc => hmem (List.mem_cons_of_mem _ hc))]

theorem map_fst_map_pair {α β : Type} (f : α → β) (l : List α) :
    (l.map (fun x => (x, f x))).map Prod.fst = l := by
  induction l with
  | nil => rfl
  | cons a t ih => simp [ih]

/-! ## Specification-side definitions

Transcriptions of the claims' own wording, kept separate from the
source-derived definitions above so the two can be compared. -/

/-- The Key Normalizer as the specification words it: trim, and on the first
configured suffix the trimmed string ends with, remove that suffix (a true
suffix removal) and re-trim; unchanged when no suffix matches. -/
def spec_get_base_key (wildcard_suffixes : List String) (val : Val) : String :=
  let val_str := pyTrim (pyStr val)
  match wildcard_suffixes.find? (fun suffix => pyEndsWith val_str suffix) with
  | some suffix => pyTrim (String.mk (val_str.data.take (val_str.data.length - suffix.length)))
  | none => val_str

/-- A row's normalized group key as the specification words it (§4.1): the
stringified, trimmed key, suffix-stripped when wildcard grouping is on. -/
def spec_normalized_key (cfg : Config) (r : Row) : String :=
  if cfg.use_wildcard then spec_get_base_key cfg.wildcard_suffixes (cellVal r cfg.group_key_col)
  else pyTrim (pyStr (cellVal r cfg.group_key_col))

/-- The distinct non-empty group emails as claim C5 words them: trim each
observed value, drop those whose trimmed lowercase form is empty, `"nan"` or
`"none"`, then take the distinct remainder in first-seen order. -/
def spec_distinct_emails (vals : List Val) : List String :=
  uniqFirst ((vals.map (fun v => pyTrim (pyStr v))).filter
    (fun s => ¬ (s = "" ∨ pyLower s = "nan" ∨ pyLower s = "none")))

/-- Folding dict assignments whose keys never collide just appends them. -/
theorem foldl_dictInsert_nodup {β : Type} :
    ∀ (l acc : List (String × β)), ((acc ++ l).map Prod.fst).Nodup →
      l.foldl (fun d p => dictInsert d p.1 p.2) acc = acc ++ l := by
  intro l
  induction l with
  | nil => intro acc _; simp
  | cons p t ih =>
    intro acc hnd
    have hnotin : p.1 ∉ acc.map Prod.fst := by
      rw [List.map_append] at hnd
      have hdisj := (List.nodup_append.mp hnd).2.2
      intro hmem
      exact hdisj hmem (by simp)
    have hins : dictInsert acc p.1 p.2 = acc ++ [p] := by
      rw [dictInsert, if_neg hnotin]
    rw [List.foldl_cons, hins,
      ih (acc ++ [p]) (by simpa [List.append_assoc] using hnd)]
    simp

/-- A Python dict built from assignments with pairwise-distinct keys is the
assignment sequence itself. -/
theorem pyDictOf_of_nodup_keys {β : Type} (l : List (String × β))
    (h : (l.map Prod.fst).Nodup) : pyDictOf l = l := by
  have hfold := foldl_dictInsert_nodup l [] (by simpa using h)
  simpa [pyDictOf] using hfold

/-! ## Claim C1: partition completeness -/

/-- Configuration of the C1 counterexample: wildcard grouping disabled. -/
def c1Cfg : Config :=
  { group_key_col := "k", email_col := none, amount_cols := [], percent_cols := [],
    display_cols := ["k"], conflict_resolution := "first", use_wildcard := false,
    wildcard_suffixes := [" 합계"], calculate_totals := false }

/-- A one-row table whose group key is the string `" nan "`: its trimmed
(normalized) form is the blank sentinel `"nan"`, but its untrimmed form is
not. -/
def c1Tbl : Table :=
  { cols := ["k"], rows := [{ cells := [("k", .str " nan ")], orig := [] }] }

/-- C1, counterexample.  With wildcard grouping disabled the blank-sentinel
skip of src/app.py:1588 tests the raw, untrimmed string form of the group
key, so the row keyed `" nan "` is kept (it is counted by a GroupRecord) even
though its group-key value normalizes, per the claim, to the blank key
`"nan"`: the claimed equality `sum of row_count = number of rows with
non-blank normalized key` reads `1 = 0` here. -/
theorem c1_counterexample :
    (((group_data_with_wildcard c1Cfg c1Tbl).1.map (fun p => p.2.row_count)).sum = 1)
    ∧ ((c1Tbl.rows.filter (fun r => ¬ isBlankKey (spec_normalized_key c1Cfg r))).length = 0) := by
  constructor
  · decide
  · decide

/-- C1, amended: for every input table and configuration in which no two
surviving groupby keys share the same string form (otherwise the later
`grouped_data[base_key_str] = ...` assignment overwrites the earlier record
and its rows vanish from the dict), the sum of `row_count` over the records
of the returned `grouped_data` dict equals the number of input rows whose
effective grouping key — the wildcard-normalized key when wildcard grouping
is enabled, the raw (untrimmed) stringified key value otherwise, null keys
being dropped — is not blank (empty or lowercase
`'nan'`/`'none'`/`'(비어 있음)'`); rows with a blank or null effective key
appear in no GroupRecord. -/
theorem c1_partition_completeness (cfg : Config) (t : Table)
    (hnodup : ((keptKeys cfg t).map pyStr).Nodup) :
    ((pyDictOf ((group_data_with_wildcard cfg t).1)).map (fun p => p.2.row_count)).sum
      = (t.rows.filter
          (fun r => effKey cfg r ≠ Val.null ∧ ¬ isBlankKey (pyStr (effKey cfg r)))).length := by
  have hkeys : (group_data_with_wildcard cfg t).1.map Prod.fst
      = (keptKeys cfg t).map pyStr := by
    simp only [group_data_with_wildcard, List.map_map]
    rfl
  have hcollapse : pyDictOf ((group_data_with_wildcard cfg t).1)
      = (group_data_with_wildcard cfg t).1 :=
    pyDictOf_of_nodup_keys _ (by rw [hkeys]; exact hnodup)
  rw [hcollapse]
  have hmap : (group_data_with_wildcard cfg t).1.map (fun p => p.2.row_count)
      = (keptKeys cfg t).map (fun k => (rowsOfKey cfg t k).length) := by
    unfold group_data_with_wildcard
    rw [List.map_map]
    exact List.map_congr_left (fun k _ => row_count_buildGroup cfg t (rowsOfKey cfg t k))
  rw [hmap]
  have hsum := sum_partition_lengths (validRows cfg t) (effKey cfg)
    (fun k => !(isBlankKey (pyStr k))) (groupKeys cfg t)
    (nodup_uniqFirst _)
    (fun r hr _ => mem_uniqFirst.mpr (List.mem_map_of_mem (effKey cfg) hr))
  have hkept : keptKeys cfg t
      = (groupKeys cfg t).filter (fun k => !(isBlankKey (pyStr k))) := by
    unfold keptKeys
    exact List.filter_congr (fun k _ => by cases h : isBlankKey (pyStr k) <;> simp [h])
  have hrok : ∀ k, (rowsOfKey cfg t k).length
      = ((validRows cfg t).filter (fun r => effKey cfg r = k)).length := fun k => rfl
  rw [hkept]
  simp only [rowsOfKey]
  rw [hsum]
  unfold validRows
  rw [List.countP_filter]
  rw [← List.countP_eq_length_filter]
  exact List.countP_congr (fun r _ => by
    by_cases h1 : effKey cfg r = Val.null <;> cases h2 : isBlankKey (pyStr (effKey cfg r)) <;>
      simp [h1, h2])

/-- C1, witness: the amended theorem at the one-group counterexample table,
whose single surviving key trivially has no string-form collision. -/
theorem c1_witness :
    (((keptKeys c1Cfg c1Tbl).map pyStr).Nodup)
    ∧ ((pyDictOf ((group_data_with_wildcard c1Cfg c1Tbl).1)).map
          (fun p => p.2.row_count)).sum
        = (c1Tbl.rows.filter
            (fun r => effKey c1Cfg r ≠ Val.null
              ∧ ¬ isBlankKey (pyStr (effKey c1Cfg r)))).length :=
  ⟨by decide, c1_partition_completeness c1Cfg c1Tbl (by decide)⟩

/-! ## Claim C7: the key normalizer -/

theorem length_ne_zero_of_ne_empty {s : String} (h : s ≠ "") : s.length ≠ 0 := by
  cases s with
  | mk data =>
    cases data with
    | nil => exact absurd rfl h
    | cons c cs => simp [String.length]

/-- C7, counterexample.  An empty configured suffix matches every value
(Python `endswith('')` is always true), and the slice `val_str[:-len(suffix)]`
with `len(suffix) == 0` is `val_str[:0]`, the empty string — the whole key is
destroyed rather than "the suffix removed": `get_base_key` with suffix list
`[""]` maps `"abc"` to `""`, while the claim's remove-the-matched-suffix
description (`spec_get_base_key`) keeps `"abc"`. -/
theorem c7_counterexample :
    get_base_key [""] (Val.str "abc") = ""
    ∧ spec_get_base_key [""] (Val.str "abc") = "abc"
    ∧ get_base_key [""] (Val.str "abc") ≠ spec_get_base_key [""] (Val.str "abc") := by
  refine ⟨by decide, by decide, by decide⟩

/-- C7, amended: provided every configured suffix is non-empty, normalization
stringifies and trims the input and removes at most one suffix — the first
suffix in list order that the trimmed string ends with — then re-trims
(exactly the specification's description `spec_get_base_key`); on any input
whose trimmed form ends with no configured suffix it returns the trimmed
string unchanged, and it is idempotent on suffix-free already-normalized
keys.  (An empty configured suffix instead maps every value to the empty
key.) -/
theorem c7_normalizer (sfx : List String) (v : Val) (k : String)
    (hne : ∀ s ∈ sfx, s ≠ "") :
    get_base_key sfx v = spec_get_base_key sfx v
    ∧ ((∀ s ∈ sfx, pyEndsWith (pyTrim (pyStr v)) s = false) →
        get_base_key sfx v = pyTrim (pyStr v))
    ∧ (pyTrim k = k → (∀ s ∈ sfx, pyEndsWith k s = false) →
        get_base_key sfx (Val.str k) = k) := by
  refine ⟨?_, ?_, ?_⟩
  · simp only [get_base_key, spec_get_base_key]
    cases hfind : (sfx.find? (fun suffix => pyEndsWith (pyTrim (pyStr v)) suffix)) with
    | none => simp [hfind]
    | some suffix =>
      have hmem : suffix ∈ sfx := List.mem_of_find?_eq_some hfind
      have hlen : suffix.length ≠ 0 := length_ne_zero_of_ne_empty (hne suffix hmem)
      simp [hfind, pyDropLast, hlen]
  · intro hall
    have hnone : sfx.find? (fun suffix => pyEndsWith (pyTrim (pyStr v)) suffix) = none :=
      List.find?_eq_none.mpr (fun s hs => by simp [hall s hs])
    simp [get_base_key, hnone]
  · intro hk hall
    have hv : pyTrim (pyStr (Val.str k)) = k := hk
    have hnone : sfx.find? (fun suffix => pyEndsWith k suffix) = none :=
      List.find?_eq_none.mpr (fun s hs => by simp [hall s hs])
    simp [get_base_key, hv, hnone]

/-- C7, witness: the amended theorem applied to the configured suffix
`" 합계"`, the raw key `" Acme 합계 "`, and the already-normalized key
`"Acme"`. -/
theorem c7_witness :
    (∀ s ∈ ([" 합계"] : List String), s ≠ "")
    ∧ (get_base_key [" 합계"] (Val.str " Acme 합계 ")
         = spec_get_base_key [" 합계"] (Val.str " Acme 합계 ")
       ∧ ((∀ s ∈ ([" 합계"] : List String),
             pyEndsWith (pyTrim (pyStr (Val.str " Acme 합계 "))) s = false) →
           get_base_key [" 합계"] (Val.str " Acme 합계 ")
             = pyTrim (pyStr (Val.str " Acme 합계 ")))
       ∧ (pyTrim "Acme" = "Acme" → (∀ s ∈ ([" 합계"] : List String), pyEndsWith "Acme" s = false) →
           get_base_key [" 합계"] (Val.str "Acme") = "Acme")) :=
  ⟨by decide, c7_normalizer [" 합계"] (Val.str " Acme 합계 ") "Acme" (by decide)⟩

/-! ## Shared concrete inputs for witnesses -/

/-- The configuration of the specification's end-to-end scenario (§8). -/
def demoCfg : Config :=
  { group_key_col := "업체", email_col := some "이메일", amount_cols := ["금액"],
    percent_cols := [], display_cols := ["업체", "금액", "이메일"],
    conflict_resolution := "first", use_wildcard := true,
    wildcard_suffixes := [" 합계"], calculate_totals := true }

/-- The raw table of the end-to-end scenario, with its `original_str` frame. -/
def demoRaw : Table :=
  { cols := ["업체", "금액", "이메일"],
    rows := [
      { cells := [("업체", .str "Acme"), ("금액", .str "100,000"), ("이메일", .str "a@x.com")],
        orig := [("업체", "Acme"), ("금액", "100,000"), ("이메일", "a@x.com")] },
      { cells := [("업체", .str "Acme 합계"), ("금액", .str "100,000"), ("이메일", .str "a@x.com")],
        orig := [("업체", "Acme 합계"), ("금액", "100,000"), ("이메일", "a@x.com")] },
      { cells := [("업체", .str "Beta"), ("금액", .str "0"), ("이메일", .str "")],
        orig := [("업체", "Beta"), ("금액", "0"), ("이메일", "")] }] }

/-- The cleaned table the grouping engine consumes. -/
def demoTbl : Table := clean_dataframe demoRaw ["금액"] []

/-! ## Claim C2: total exclusion -/

/-- C2, confirmed: with wildcard grouping and total calculation enabled, each
group's computed total for an amount column of the table is the formatted sum
of that column over the group's data rows only — every row whose raw
group-key value ends with a configured suffix is filtered out of the sum,
whatever value its amount cell carries. -/
theorem c2_total_exclusion (cfg : Config) (t : Table) (k : Val) (col : String)
    (hk : k ∈ keptKeys cfg t) (hw : cfg.use_wildcard = true)
    (hc : cfg.calculate_totals = true) (hcol : col ∈ cfg.amount_cols)
    (htc : col ∈ t.cols) :
    (pyStr k, buildGroup cfg t (rowsOfKey cfg t k)) ∈ (group_data_with_wildcard cfg t).1
    ∧ (buildGroup cfg t (rowsOfKey cfg t k)).totals.lookup col
      = some (fmtTotal
          (amountSum ((rowsOfKey cfg t k).filter (fun r => ¬ isTotalRow cfg r)) col)) := by
  constructor
  · simp only [group_data_with_wildcard]
    exact List.mem_map_of_mem _ hk
  · simp only [buildGroup, totalsOf, hc, hw, if_true]
    have hmem : col ∈ cfg.amount_cols.filter (fun c => c ∈ t.cols) :=
      List.mem_filter.mpr ⟨hcol, by simp [htc]⟩
    exact lookup_map_pair_of_mem _ _ hmem

/-- C2, witness: the total-exclusion theorem at the end-to-end scenario's
`"Acme"` group and amount column `"금액"`, where both rows carry `100,000`
but only the data row is summed: the total is `"100,000"`. -/
theorem c2_witness :
    (Val.str "Acme" ∈ keptKeys demoCfg demoTbl)
    ∧ (((pyStr (Val.str "Acme"),
          buildGroup demoCfg demoTbl (rowsOfKey demoCfg demoTbl (Val.str "Acme")))
            ∈ (group_data_with_wildcard demoCfg demoTbl).1
       ∧ (buildGroup demoCfg demoTbl (rowsOfKey demoCfg demoTbl (Val.str "Acme"))).totals.lookup "금액"
          = some (fmtTotal
              (amountSum ((rowsOfKey demoCfg demoTbl (Val.str "Acme")).filter
                (fun r => ¬ isTotalRow demoCfg r)) "금액"))))
    ∧ (buildGroup demoCfg demoTbl (rowsOfKey demoCfg demoTbl (Val.str "Acme"))).totals
        = [("금액", "100,000")] :=
  ⟨by decide,
   c2_total_exclusion demoCfg demoTbl (Val.str "Acme") "금액"
     (by decide) (by decide) (by decide) (by decide) (by decide),
   by decide⟩

/-! ## Claim C3: the SKIP conflict policy -/

/-- A conflicted group under conflict policy `skip`. -/
def c3Cfg : Config :=
  { group_key_col := "k", email_col := some "e", amount_cols := [],
    percent_cols := [], display_cols := ["k", "e"],
    conflict_resolution := "skip", use_wildcard := true,
    wildcard_suffixes := [" 합계"], calculate_totals := true }

/-- Three rows of one group with emails `b@x.com`, `a@x.com`, `b@x.com`. -/
def c3Tbl : Table :=
  { cols := ["k", "e"],
    rows := [
      { cells := [("k", .str "g"), ("e", .str "b@x.com")], orig := [] },
      { cells := [("k", .str "g"), ("e", .str "a@x.com")], orig := [] },
      { cells := [("k", .str "g"), ("e", .str "b@x.com")], orig := [] }] }

/-- C3: the claim (and spec §4.3) say policy SKIP resolves
`recipient_email = None`, but src/app.py:1604-1609 has no `skip` branch — the
trailing `else` picks `unique_emails[0]`, so `skip` behaves exactly like
`first`.  Evaluating the embedded code at the failing input: the conflicted
group resolves to `b@x.com`, not `None`, while `has_conflict` and
`conflict_emails` behave as claimed. -/
theorem c3_skip_behaves_as_first :
    (group_data_with_wildcard c3Cfg c3Tbl).1.map
        (fun p => (p.1, p.2.recipient_email, p.2.has_conflict, p.2.conflict_emails))
      = [("g", some "b@x.com", true, ["b@x.com", "a@x.com"])] := by
  decide

/-! ## Claim C5: conflict detection -/

/-- Two rows of one group whose emails differ only in surrounding
whitespace. -/
def c5Tbl : Table :=
  { cols := ["k", "e"],
    rows := [
      { cells := [("k", .str "g"), ("e", .str "a@x.com")], orig := [] },
      { cells := [("k", .str "g"), ("e", .str " a@x.com")], orig := [] }] }

/-- C5, counterexample.  src/app.py:1593 computes `.unique()` on the raw
values *before* stripping, so `"a@x.com"` and `" a@x.com"` count as two
entries: the code reports `has_conflict = True` with
`conflict_emails = ["a@x.com", "a@x.com"]`, although the claim's
trim-then-distinct set (`spec_distinct_emails`) has exactly one element. -/
theorem c5_counterexample :
    ((group_data_with_wildcard c3Cfg c5Tbl).1.map
        (fun p => (p.1, p.2.has_conflict, p.2.conflict_emails)))
      = [("g", true, ["a@x.com", "a@x.com"])]
    ∧ (spec_distinct_emails [Val.str "a@x.com", Val.str " a@x.com"]).length = 1 := by
  refine ⟨by decide, by decide⟩

/-- C5, amended: `has_conflict` is true iff the list obtained by taking the
*distinct raw* email values in first-seen order, then trimming each and
dropping those whose trimmed lowercase form is empty, `'nan'` or `'none'`,
has more than one entry — this list may contain duplicates that differ only
in surrounding whitespace; when conflicted, `conflict_emails` is exactly that
list, and otherwise it is empty. -/
theorem c5_conflict_detection (cfg : Config) (t : Table) (k : Val)
    (hk : k ∈ keptKeys cfg t) :
    (pyStr k, buildGroup cfg t (rowsOfKey cfg t k)) ∈ (group_data_with_wildcard cfg t).1
    ∧ ((buildGroup cfg t (rowsOfKey cfg t k)).has_conflict = true
        ↔ 1 < (unique_emails cfg t (rowsOfKey cfg t k)).length)
    ∧ (buildGroup cfg t (rowsOfKey cfg t k)).conflict_emails
        = (if 1 < (unique_emails cfg t (rowsOfKey cfg t k)).length
           then unique_emails cfg t (rowsOfKey cfg t k) else []) := by
  refine ⟨?_, ?_, ?_⟩
  · simp only [group_data_with_wildcard]
    exact List.mem_map_of_mem _ hk
  · simp [buildGroup]
  · simp [buildGroup]

/-- C5, witness: the amended theorem at the whitespace-variant table, where
the group is conflicted although only one trimmed address occurs. -/
theorem c5_witness :
    (Val.str "g" ∈ keptKeys c3Cfg c5Tbl)
    ∧ ((pyStr (Val.str "g"), buildGroup c3Cfg c5Tbl (rowsOfKey c3Cfg c5Tbl (Val.str "g")))
          ∈ (group_data_with_wildcard c3Cfg c5Tbl).1
       ∧ ((buildGroup c3Cfg c5Tbl (rowsOfKey c3Cfg c5Tbl (Val.str "g"))).has_conflict = true
            ↔ 1 < (unique_emails c3Cfg c5Tbl (rowsOfKey c3Cfg c5Tbl (Val.str "g"))).length)
       ∧ (buildGroup c3Cfg c5Tbl (rowsOfKey c3Cfg c5Tbl (Val.str "g"))).conflict_emails
            = (if 1 < (unique_emails c3Cfg c5Tbl (rowsOfKey c3Cfg c5Tbl (Val.str "g"))).length
               then unique_emails c3Cfg c5Tbl (rowsOfKey c3Cfg c5Tbl (Val.str "g")) else [])) :=
  ⟨by decide, c5_conflict_detection c3Cfg c5Tbl (Val.str "g") (by decide)⟩

/-! ## Claim C6: the zero-as-blank round trip -/

/-- C6, confirmed: a display cell holding numeric `0` renders as the empty
string (src/app.py:1651-1653), yet the row is not skipped by the sum — it
contributes exactly `0` to the amount total — and a total summing to zero is
itself formatted as the empty string, never `"0"` (src/app.py:1691). -/
theorem c6_zero_blank (cfg : Config) (r : Row) (c : String) (grp : List Row)
    (hc : c ∈ cfg.display_cols) (hv : r.cells.lookup c = some (Val.num 0)) :
    (renderRow cfg r).lookup c = some ""
    ∧ amountSum (r :: grp) c = amountSum grp c
    ∧ fmtTotal 0 = "" := by
  refine ⟨?_, ?_, rfl⟩
  · have hcell : renderCell r c = "" := by simp [renderCell, hv]
    have hlook := lookup_map_pair_of_mem (fun c => renderCell r c) cfg.display_cols hc
    rw [renderRow, hlook]
    simpa using hcell
  · simp [amountSum, cellVal, hv, amtOf]

/-- C6, witness: a row whose amount cell is numeric zero (original text
`"0"`) inside a one-column display. -/
theorem c6_witness :
    ("금액" ∈ demoCfg.display_cols)
    ∧ ((Row.mk [("금액", Val.num 0)] [("금액", "0")]).cells.lookup "금액" = some (Val.num 0))
    ∧ ((renderRow demoCfg (Row.mk [("금액", Val.num 0)] [("금액", "0")])).lookup "금액" = some ""
       ∧ amountSum [Row.mk [("금액", Val.num 0)] [("금액", "0")]] "금액" = amountSum [] "금액"
       ∧ fmtTotal 0 = "") :=
  ⟨by decide, by decide,
   c6_zero_blank demoCfg (Row.mk [("금액", Val.num 0)] [("금액", "0")]) "금액" []
     (by decide) (by decide)⟩

/-! ## Claim C9: amount-cell rendering -/

/-- An amount cell cleaned from the spreadsheet text `"1000"`: numeric 1000,
with no original-string frame available. -/
def c9Row : Row :=
  { cells := [("금액", cleanAmountCell (Val.str "1000"))], orig := [] }

/-- C9, counterexample.  Row cells are never thousands-separated by the
rendering loop (src/app.py:1629-1678): a non-zero amount renders as the
original spreadsheet text, or as the plain `str(int(value))` when no
original is available.  The amount `1000` renders `"1000"`, not the
currency-formatted `"1,000"` the claim requires; only `totals` get the
`f"{v:,.0f}"` treatment. -/
theorem c9_counterexample :
    renderCell c9Row "금액" = "1000"
    ∧ fmtComma 1000 = "1,000"
    ∧ renderCell c9Row "금액" ≠ fmtComma 1000 := by
  refine ⟨by decide, by decide, by decide⟩

/-- C9, amended: for every display cell of an amount column, a zero or
missing amount renders as the empty string (never `"0"`); a non-zero amount
renders as the trimmed original spreadsheet text when one is available and it
is not a blank/zero sentinel, and otherwise as the plain, unseparated decimal
string of the number — thousands-separator formatting is applied only to the
computed totals, not to row cells. -/
theorem c9_amount_rendering (r0 rN rM rA rB : Row) (c : String) (n : Int) (s : String) :
    (r0.cells.lookup c = some (Val.num 0) → renderCell r0 c = "")
    ∧ (rN.cells.lookup c = some Val.null → renderCell rN c = "")
    ∧ (rM.cells.lookup c = none → renderCell rM c = "")
    ∧ (rA.cells.lookup c = some (Val.num n) → n ≠ 0 → rA.orig.lookup c = none →
        renderCell rA c = toString n)
    ∧ (rB.cells.lookup c = some (Val.num n) → n ≠ 0 → rB.orig.lookup c = some s →
        pyTrim s ≠ "" → pyLower (pyTrim s) ∉ blankOrig → renderCell rB c = pyTrim s) := by
  refine ⟨?_, ?_, ?_, ?_, ?_⟩
  · intro hv; simp [renderCell, hv]
  · intro hv; simp [renderCell, hv]
  · intro hv; simp [renderCell, hv]
  · intro hv hn ho
    simp [renderCell, hv, ho, hn, renderPlain, pyStr]
  · intro hv hn ho hne hblank
    simp [renderCell, hv, ho, hn, hne, hblank]

/-- C9, witness: the rendering contract discharged at concrete rows — a zero
amount, a missing (NaN) amount, an absent column, the amount `1234` with no
original text (rendering `"1234"`), and the amount `1234` with original text
`" 1,234 "` (rendering the trimmed original). -/
theorem c9_witness :
    renderCell (Row.mk [("금액", Val.num 0)] []) "금액" = ""
    ∧ renderCell (Row.mk [("금액", Val.null)] []) "금액" = ""
    ∧ renderCell (Row.mk [] []) "금액" = ""
    ∧ renderCell (Row.mk [("금액", Val.num 1234)] []) "금액" = toString (1234 : Int)
    ∧ renderCell (Row.mk [("금액", Val.num 1234)] [("금액", " 1,234 ")]) "금액"
        = pyTrim " 1,234 " :=
  ⟨(c9_amount_rendering (Row.mk [("금액", Val.num 0)] []) (Row.mk [] []) (Row.mk [] [])
      (Row.mk [] []) (Row.mk [] []) "금액" 1234 "x").1 (by decide),
   (c9_amount_rendering (Row.mk [] []) (Row.mk [("금액", Val.null)] []) (Row.mk [] [])
      (Row.mk [] []) (Row.mk [] []) "금액" 1234 "x").2.1 (by decide),
   (c9_amount_rendering (Row.mk [] []) (Row.mk [] []) (Row.mk [] [])
      (Row.mk [] []) (Row.mk [] []) "금액" 1234 "x").2.2.1 (by decide),
   (c9_amount_rendering (Row.mk [] []) (Row.mk [] []) (Row.mk [] [])
      (Row.mk [("금액", Val.num 1234)] []) (Row.mk [] []) "금액" 1234 "x").2.2.2.1
      (by decide) (by decide) (by decide),
   (c9_amount_rendering (Row.mk [] []) (Row.mk [] []) (Row.mk [] []) (Row.mk [] [])
      (Row.mk [("금액", Val.num 1234)] [("금액", " 1,234 ")]) "금액" 1234 " 1,234 ").2.2.2.2
      (by decide) (by decide) (by decide) (by decide) (by decide)⟩

/-! ## Claim C10: the row-shape invariant -/

/-- C10, confirmed: every row dictionary of every GroupRecord has exactly the
configured display columns as its keys, in order; a display column absent
from the row's data renders as the empty string, and no column outside
`display_cols` appears in a rendered row. -/
theorem c10_row_shape (cfg : Config) (t : Table) (k : Val) (r : Row) (c₁ c₂ : String)
    (hk : k ∈ keptKeys cfg t) :
    (pyStr k, buildGroup cfg t (rowsOfKey cfg t k)) ∈ (group_data_with_wildcard cfg t).1
    ∧ (∀ rr ∈ (buildGroup cfg t (rowsOfKey cfg t k)).rows, rr.map Prod.fst = cfg.display_cols)
    ∧ (c₁ ∈ cfg.display_cols → r.cells.lookup c₁ = none →
        (renderRow cfg r).lookup c₁ = some "")
    ∧ (c₂ ∉ cfg.display_cols → (renderRow cfg r).lookup c₂ = none) := by
  refine ⟨?_, ?_, ?_, ?_⟩
  · simp only [group_data_with_wildcard]
    exact List.mem_map_of_mem _ hk
  · intro rr hrr
    simp only [buildGroup] at hrr
    obtain ⟨r', _, rfl⟩ := List.mem_map.mp hrr
    exact map_fst_map_pair _ _
  · intro hc hnone
    have hlook := lookup_map_pair_of_mem (fun c => renderCell r c) cfg.display_cols hc
    rw [renderRow, hlook]
    simp [renderCell, hnone]
  · intro hc
    exact lookup_map_pair_of_not_mem _ _ hc

/-- C10, witness: the row-shape theorem at the end-to-end scenario's `"Acme"`
group, a row lacking the `"금액"` column, and the foreign column `"기타"`. -/
theorem c10_witness :
    (Val.str "Acme" ∈ keptKeys demoCfg demoTbl)
    ∧ ((pyStr (Val.str "Acme"),
          buildGroup demoCfg demoTbl (rowsOfKey demoCfg demoTbl (Val.str "Acme")))
            ∈ (group_data_with_wildcard demoCfg demoTbl).1
       ∧ (∀ rr ∈ (buildGroup demoCfg demoTbl (rowsOfKey demoCfg demoTbl (Val.str "Acme"))).rows,
          rr.map Prod.fst = demoCfg.display_cols)
       ∧ ("금액" ∈ demoCfg.display_cols →
            (Row.mk [("업체", Val.str "Acme")] []).cells.lookup "금액" = none →
            (renderRow demoCfg (Row.mk [("업체", Val.str "Acme")] [])).lookup "금액" = some "")
       ∧ ("기타" ∉ demoCfg.display_cols →
            (renderRow demoCfg (Row.mk [("업체", Val.str "Acme")] [])).lookup "기타" = none)) :=
  ⟨by decide,
   c10_row_shape demoCfg demoTbl (Val.str "Acme") (Row.mk [("업체", Val.str "Acme")] [])
     "금액" "기타" (by decide)⟩

/-! ## Claim C8: the MOST_COMMON conflict policy -/

/-- The running best of the strictly-greater fold splits its input: everything
before it counts strictly less, and nothing counts more. -/
theorem foldl_best_split {β : Type} (cnt : β → Nat) :
    ∀ (ds : List β) (d : β),
      ∃ pre post,
        d :: ds = pre ++ (ds.foldl (fun acc x => if cnt x > cnt acc then x else acc) d) :: post
        ∧ (∀ u ∈ pre, cnt u < cnt (ds.foldl (fun acc x => if cnt x > cnt acc then x else acc) d))
        ∧ (∀ u ∈ d :: ds,
            cnt u ≤ cnt (ds.foldl (fun acc x => if cnt x > cnt acc then x else acc) d)) := by
  intro ds
  induction ds with
  | nil =>
    intro d
    exact ⟨[], [], by simp, by simp, by simp⟩
  | cons v t ih =>
    intro d
    rw [List.foldl_cons]
    by_cases hvd : cnt d < cnt v
    · have hstep : (if cnt v > cnt d then v else d) = v := if_pos hvd
      rw [hstep]
      obtain ⟨pre, post, hsplit, hpre, hall⟩ := ih v
      have hvres := hall v (List.mem_cons_self v t)
      refine ⟨d :: pre, post, ?_, ?_, ?_⟩
      · rw [List.cons_append, ← hsplit]
      · intro u hu
        rcases List.mem_cons.mp hu with rfl | h
        · omega
        · exact hpre u h
      · intro u hu
        rcases List.mem_cons.mp hu with rfl | h
        · omega
        · exact hall u h
    · have hstep : (if cnt v > cnt d then v else d) = d := if_neg hvd
      rw [hstep]
      obtain ⟨pre, post, hsplit, hpre, hall⟩ := ih d
      have hdres := hall d (List.mem_cons_self d t)
      cases pre with
      | nil =>
        simp only [List.nil_append] at hsplit
        injection hsplit with hd hpost
        refine ⟨[], v :: post, ?_, by simp, ?_⟩
        · rw [← hd, ← hpost]
          simp
        · intro u hu
          rcases List.mem_cons.mp hu with rfl | h
          · exact hdres
          · rcases List.mem_cons.mp h with rfl | h2
            · omega
            · exact hall u (List.mem_cons_of_mem _ h2)
      | cons p pre' =>
        simp only [List.cons_append] at hsplit
        injection hsplit with hd ht
        have hdp : cnt d = cnt p := by rw [hd]
        have hdcnt : cnt d < cnt (t.foldl (fun acc x => if cnt x > cnt acc then x else acc) d) := by
          rw [hdp]
          exact hpre p (List.mem_cons_self p pre')
        refine ⟨d :: v :: pre', post, ?_, ?_, ?_⟩
        · conv_lhs => rw [ht]
          simp [List.cons_append]
        · intro u hu
          rcases List.mem_cons.mp hu with rfl | h
          · exact hdcnt
          · rcases List.mem_cons.mp h with rfl | h2
            · omega
            · exact hpre u (List.mem_cons_of_mem _ h2)
        · intro u hu
          rcases List.mem_cons.mp hu with rfl | h
          · exact hdres
          · rcases List.mem_cons.mp h with rfl | h2
            · omega
            · exact hall u (List.mem_cons_of_mem _ h2)

/-- C8, confirmed: in a conflicted group under policy `most_common` the
resolved recipient is the stringified raw value picked by `value_counts`:
it occurs in the group's raw (non-distinct, NaN-dropped) email values at
least as often as every other value, and strictly more often than every
value seen before it — ties are broken by first-seen order. -/
theorem c8_most_common (cfg : Config) (t : Table) (k : Val)
    (hk : k ∈ keptKeys cfg t) (hpol : cfg.conflict_resolution = "most_common")
    (hconf : 1 < (unique_emails cfg t (rowsOfKey cfg t k)).length) :
    ∃ pre post,
      (pyStr k, buildGroup cfg t (rowsOfKey cfg t k)) ∈ (group_data_with_wildcard cfg t).1
      ∧ (buildGroup cfg t (rowsOfKey cfg t k)).recipient_email
          = some (pyStr (mostCommonVal (rawEmails cfg t (rowsOfKey cfg t k))))
      ∧ uniqFirst (rawEmails cfg t (rowsOfKey cfg t k))
          = pre ++ mostCommonVal (rawEmails cfg t (rowsOfKey cfg t k)) :: post
      ∧ (∀ u ∈ pre,
          (rawEmails cfg t (rowsOfKey cfg t k)).count u
            < (rawEmails cfg t (rowsOfKey cfg t k)).count
                (mostCommonVal (rawEmails cfg t (rowsOfKey cfg t k))))
      ∧ (∀ u ∈ rawEmails cfg t (rowsOfKey cfg t k),
          (rawEmails cfg t (rowsOfKey cfg t k)).count u
            ≤ (rawEmails cfg t (rowsOfKey cfg t k)).count
                (mostCommonVal (rawEmails cfg t (rowsOfKey cfg t k)))) := by
  have hok : emailColOk cfg t = true := by
    by_contra hfalse
    have hraw0 : rawEmails cfg t (rowsOfKey cfg t k) = [] := by
      simp only [rawEmails, Bool.not_eq_true] at hfalse ⊢
      rw [if_neg (by simp [hfalse])]
    have hue0 : unique_emails cfg t (rowsOfKey cfg t k) = [] := by
      simp [unique_emails, hraw0, uniqFirst]
    rw [hue0] at hconf
    simp at hconf
  cases hue : unique_emails cfg t (rowsOfKey cfg t k) with
  | nil => rw [hue] at hconf; simp at hconf
  | cons e rest =>
    have hrest : rest ≠ [] := by
      rw [hue] at hconf
      simp only [List.length_cons] at hconf
      intro h0
      rw [h0] at hconf
      simp at hconf
    have hrec : resolveRecipient cfg t (rowsOfKey cfg t k)
        = some (pyStr (mostCommonVal (rawEmails cfg t (rowsOfKey cfg t k)))) := by
      unfold resolveRecipient
      simp only [hue]
      rw [if_neg hrest, hpol]
      rw [if_neg (by decide : ¬ (("most_common" : String) = "first"))]
      rw [if_pos (by simp [hok])]
    have hne : uniqFirst (rawEmails cfg t (rowsOfKey cfg t k)) ≠ [] := by
      intro h0
      have hue0 : unique_emails cfg t (rowsOfKey cfg t k) = [] := by
        simp [unique_emails, h0]
      rw [hue0] at hue
      exact List.noConfusion hue
    cases huq : uniqFirst (rawEmails cfg t (rowsOfKey cfg t k)) with
    | nil => exact absurd huq hne
    | cons d ds =>
      have hmc : mostCommonVal (rawEmails cfg t (rowsOfKey cfg t k))
          = ds.foldl (fun acc x =>
              if (rawEmails cfg t (rowsOfKey cfg t k)).count x
                  > (rawEmails cfg t (rowsOfKey cfg t k)).count acc then x else acc) d := by
        simp [mostCommonVal, huq]
      obtain ⟨pre, post, hsplit, hpre, hall⟩ :=
        foldl_best_split ((rawEmails cfg t (rowsOfKey cfg t k)).count ·) ds d
      refine ⟨pre, post, ?_, ?_, ?_, ?_, ?_⟩
      · simp only [group_data_with_wildcard]
        exact List.mem_map_of_mem _ hk
      · simp only [buildGroup]
        exact hrec
      · rw [hmc]
        exact hsplit
      · intro u hu
        rw [hmc]
        exact hpre u hu
      · intro u hu
        rw [hmc]
        have humem : u ∈ d :: ds := by
          rw [← huq]
          exact mem_uniqFirst.mpr hu
        exact hall u humem

/-- The MOST_COMMON configuration for the witness group. -/
def c8Cfg : Config :=
  { c3Cfg with conflict_resolution := "most_common" }

/-- C8, witness: the MOST_COMMON theorem at the group with emails
`["b@x.com", "a@x.com", "b@x.com"]`, where `b@x.com` (2 occurrences) wins. -/
theorem c8_witness :
    (Val.str "g" ∈ keptKeys c8Cfg c3Tbl)
    ∧ (c8Cfg.conflict_resolution = "most_common")
    ∧ (1 < (unique_emails c8Cfg c3Tbl (rowsOfKey c8Cfg c3Tbl (Val.str "g"))).length)
    ∧ (∃ pre post,
        (pyStr (Val.str "g"), buildGroup c8Cfg c3Tbl (rowsOfKey c8Cfg c3Tbl (Val.str "g")))
            ∈ (group_data_with_wildcard c8Cfg c3Tbl).1
        ∧ (buildGroup c8Cfg c3Tbl (rowsOfKey c8Cfg c3Tbl (Val.str "g"))).recipient_email
            = some (pyStr (mostCommonVal (rawEmails c8Cfg c3Tbl (rowsOfKey c8Cfg c3Tbl (Val.str "g")))))
        ∧ uniqFirst (rawEmails c8Cfg c3Tbl (rowsOfKey c8Cfg c3Tbl (Val.str "g")))
            = pre ++ mostCommonVal (rawEmails c8Cfg c3Tbl (rowsOfKey c8Cfg c3Tbl (Val.str "g"))) :: post
        ∧ (∀ u ∈ pre,
            (rawEmails c8Cfg c3Tbl (rowsOfKey c8Cfg c3Tbl (Val.str "g"))).count u
              < (rawEmails c8Cfg c3Tbl (rowsOfKey c8Cfg c3Tbl (Val.str "g"))).count
                  (mostCommonVal (rawEmails c8Cfg c3Tbl (rowsOfKey c8Cfg c3Tbl (Val.str "g")))))
        ∧ (∀ u ∈ rawEmails c8Cfg c3Tbl (rowsOfKey c8Cfg c3Tbl (Val.str "g")),
            (rawEmails c8Cfg c3Tbl (rowsOfKey c8Cfg c3Tbl (Val.str "g"))).count u
              ≤ (rawEmails c8Cfg c3Tbl (rowsOfKey c8Cfg c3Tbl (Val.str "g"))).count
                  (mostCommonVal (rawEmails c8Cfg c3Tbl (rowsOfKey c8Cfg c3Tbl (Val.str "g"))))))
    ∧ (buildGroup c8Cfg c3Tbl (rowsOfKey c8Cfg c3Tbl (Val.str "g"))).recipient_email
        = some "b@x.com" :=
  ⟨by decide, rfl, by decide,
   c8_most_common c8Cfg c3Tbl (Val.str "g") (by decide) rfl (by decide),
   by decide⟩

end MM
